import Mathlib

/-!
Verification development for a custodial Lightning wallet backend:
payment routing (on-us vs external), double-entry ledger accounting,
settlement reconciliation, reward issuance, and a push-notification
dispatcher.

The repository ships the integration test suite of the payment core
(`src/__tests__/04-lightning-payment.ts`) and the push-notification
service (`src/services/notifications/push-notifications.ts`).  The
payment/ledger core itself is not in the repository, so it is modelled
here from the specification, with the test suite taken as authoritative
wherever it pins a concrete behavior.  The push-notification component
is translated directly from its source.
-/

/-- Type tag of a ledger row (spec §3, LedgerEntry). -/
inductive TxType
  | on_us_send
  | on_us_receive
  | external_send
  | external_receive
  | onboarding_earn
  | fee
  deriving DecidableEq, Repr

/-- Settlement sub-state of a ledger row (spec §4.5): committed rows are
`base`; a provisional debit is `pending` until it is `settled` or
`reversed`. -/
inductive SubState
  | base
  | pending
  | settled
  | reversed
  deriving DecidableEq, Repr

/-- Modelled from the spec: `LedgerEntry` (spec §3) — account path, signed
amount (credit positive / debit negative), correlation hash, type tag,
optional memo, settlement sub-state.  Timestamps are represented by list
position (most recent first); the single currency is left implicit. -/
structure LedgerEntry where
  accountPath : String
  amount : Int
  hash : String
  txType : TxType
  memo : Option String
  substate : SubState
  deriving DecidableEq, Repr

/-- Modelled from the spec: the mutable state of the payment core — the
append-only Ledger Store (most recent entry first, spec §4.2) and the
Invoice Directory mapping invoice content hash to issuing user id
(spec §4.1). -/
structure WalletState where
  ledger : List LedgerEntry
  invoiceDir : List (String × String)
  deriving DecidableEq, Repr

/-- Error kinds of the payment core (spec §7). -/
inductive WalletError
  | DuplicateInvoiceError
  | AmountMismatchError
  | AmountRequiredError
  | SelfPaymentError
  | InsufficientBalanceError
  | UnbalancedEntrySetError
  | RouteNotFoundError
  | RemoteCapacityExceededError
  | NodeUnreachableError
  | PaymentTimeoutError
  deriving DecidableEq, Repr

/-- Result of decoding a BOLT11 payment request, provided by the external
node capability (spec §6): content hash, destination node, embedded
amount (absent for any-amount invoices), optional memo. -/
structure DecodedInvoice where
  hash : String
  destination : String
  amount : Option Nat
  memo : Option String
  deriving DecidableEq, Repr

/-- Outcome reported by the external Lightning node for a submitted
payment (spec §6): immediate settlement with exact fee, deferred
(hodl-style) acceptance, or failure with a reason. -/
inductive NodeOutcome
  | success (fee : Nat)
  | pending
  | failure (reason : WalletError)
  deriving DecidableEq, Repr

/-- Non-error outcome of `pay` (spec §4.4): `Success{fee}` or `Pending`. -/
inductive PayOutcome
  | success (fee : Nat)
  | pending
  deriving DecidableEq, Repr

deriving instance DecidableEq for Except

/-- Full observable outcome of one `pay` call: the returned result, the
resulting state, and whether the external node was contacted. -/
structure PayOutput where
  result : Except WalletError PayOutcome
  state : WalletState
  networkCalled : Bool
  deriving DecidableEq, Repr

/-- Sum of the signed amounts of a list of ledger rows. -/
def amountSum (l : List LedgerEntry) : Int :=
  (l.map (fun e => e.amount)).sum

/-- Sum of the amounts of the rows carrying a given correlation hash
(invariant I1 sums this to zero). -/
def hashSum (h : String) (l : List LedgerEntry) : Int :=
  amountSum (l.filter (fun e => e.hash = h))

/-- Sum of the amounts of the still-pending rows carrying a given
correlation hash. -/
def pendingSum (h : String) (l : List LedgerEntry) : Int :=
  amountSum (l.filter (fun e => e.hash = h ∧ e.substate = SubState.pending))

/-- Ledger rows of one account, most recent first (spec §4.2,
`entriesFor`). -/
def entriesFor (s : WalletState) (account : String) : List LedgerEntry :=
  s.ledger.filter (fun e => e.accountPath = account)

/-- Balance of an account as a sum over a raw ledger list. -/
def ledgerBalance (l : List LedgerEntry) (account : String) : Int :=
  amountSum (l.filter (fun e => e.accountPath = account))

/-- Modelled from the spec: the Balance Calculator (spec §4.3) —
`balanceOf(accountPath) = Σ amount over entriesFor(accountPath)`,
always derived from the ledger. -/
def balanceOf (s : WalletState) (account : String) : Int :=
  amountSum (entriesFor s account)

/-- Modelled from the spec: Invoice Directory lookup (spec §4.1),
`lookup(hash) -> Option<userId>`, a pure read. -/
def lookupInvoice (s : WalletState) (h : String) : Option String :=
  (s.invoiceDir.find? (fun p => p.1 = h)).map (fun p => p.2)

/-- Modelled from the spec: Invoice Directory registration (spec §4.1) —
`register(hash, userId)` fails with `DuplicateInvoiceError` if the hash
already exists (invariant I4). -/
def registerInvoice (s : WalletState) (h uid : String) :
    Except WalletError WalletState :=
  match lookupInvoice s h with
  | some _ => Except.error WalletError.DuplicateInvoiceError
  | none => Except.ok { s with invoiceDir := (h, uid) :: s.invoiceDir }

/-- Modelled from the spec: the Ledger Store's atomic balanced append
(spec §4.2) — accepts only entry sets whose amounts sum to zero, else
fails with `UnbalancedEntrySetError` before any write. -/
def appendBalanced (s : WalletState) (entries : List LedgerEntry) :
    Except WalletError WalletState :=
  if amountSum entries = 0 then
    Except.ok { s with ledger := entries ++ s.ledger }
  else
    Except.error WalletError.UnbalancedEntrySetError

/-- Internal escrow account for funds in flight on the Lightning Network. -/
def lightningAccount : String := "Assets:Lightning"

/-- Internal fee-revenue account credited with routing fees (spec §4.5). -/
def feeRevenueAccount : String := "Revenue:Fees"

/-- System account debited when onboarding rewards are issued (spec §4.6). -/
def rewardsAccount : String := "Expenses:Rewards"

/-- Modelled from the spec: the balanced entry pair of an on-us payment
(spec §4.4 step 4) — debit payer `on_us_send`, credit payee
`on_us_receive`, correlation = invoice hash, memo copied from the
invoice. -/
def onUsEntries (payer payee h : String) (a : Nat) (memo : Option String) :
    List LedgerEntry :=
  [ { accountPath := payer, amount := -(a : Int), hash := h,
      txType := TxType.on_us_send, memo := memo, substate := SubState.base },
    { accountPath := payee, amount := (a : Int), hash := h,
      txType := TxType.on_us_receive, memo := memo, substate := SubState.base } ]

/-- Modelled from the spec: the balanced entry set of an immediately
settled external payment (spec §4.5, Success) — debit payer for
(amount + exact fee) tagged `external_send`, credit the escrow with the
amount and the fee-revenue account with the fee, correlation = network
payment hash. -/
def externalSendEntries (payer h : String) (a feeAmt : Nat)
    (memo : Option String) : List LedgerEntry :=
  [ { accountPath := payer, amount := -((a : Int) + (feeAmt : Int)), hash := h,
      txType := TxType.external_send, memo := memo, substate := SubState.base },
    { accountPath := lightningAccount, amount := (a : Int), hash := h,
      txType := TxType.external_send, memo := memo, substate := SubState.base },
    { accountPath := feeRevenueAccount, amount := (feeAmt : Int), hash := h,
      txType := TxType.fee, memo := memo, substate := SubState.base } ]

/-- Modelled from the spec: the provisional balanced entry pair of a
deferred (hodl-style) external payment (spec §4.5, Pending) — the
payer's funds are provisionally committed immediately, tagged with the
`pending` sub-state, correlation = network payment hash. -/
def pendingEntries (payer h : String) (a : Nat) (memo : Option String) :
    List LedgerEntry :=
  [ { accountPath := payer, amount := -(a : Int), hash := h,
      txType := TxType.external_send, memo := memo,
      substate := SubState.pending },
    { accountPath := lightningAccount, amount := (a : Int), hash := h,
      txType := TxType.external_send, memo := memo,
      substate := SubState.pending } ]

/-- Modelled from the spec: amount resolution of the Payment Router
(spec §4.4 step 2).  An any-amount invoice requires an explicit amount
(`AmountRequiredError` otherwise).  For a fixed-amount invoice the
repository's test `fails to pay regular invoice with separate amt` pins
behavior stricter than the spec's wording: supplying an explicit amount
alongside a fixed-amount invoice is rejected even when the two amounts
are equal. -/
def resolveAmount : Option Nat → Option Nat → Except WalletError Nat
  | some _, some _ => Except.error WalletError.AmountMismatchError
  | some a, none => Except.ok a
  | none, some b => Except.ok b
  | none, none => Except.error WalletError.AmountRequiredError

/-- Modelled from the spec: the Payment Router (spec §4.4), the central
decision procedure for paying a decoded invoice.  Amount resolution and
the self-payment check are local validations; an on-us payment (hash
resolves to a different registered user) settles internally with zero
fee and no network call; otherwise the balance (amount plus the
conservative maximum-fee estimate `maxFee`) is verified before the
external node is contacted, and the node's outcome drives settlement
reconciliation (spec §4.5): immediate success commits the debit with
the exact fee, a deferred acceptance commits a provisional pending
debit, and failure writes nothing. -/
def pay (payer : String) (inv : DecodedInvoice) (explicitAmount : Option Nat)
    (nodeOutcome : NodeOutcome) (maxFee : Nat) (s : WalletState) : PayOutput :=
  match resolveAmount inv.amount explicitAmount with
  | Except.error e => ⟨Except.error e, s, false⟩
  | Except.ok a =>
    match lookupInvoice s inv.hash with
    | some payee =>
      if payee = payer then
        ⟨Except.error WalletError.SelfPaymentError, s, false⟩
      else if balanceOf s payer < (a : Int) then
        ⟨Except.error WalletError.InsufficientBalanceError, s, false⟩
      else
        match appendBalanced s (onUsEntries payer payee inv.hash a inv.memo) with
        | Except.ok s' => ⟨Except.ok (PayOutcome.success 0), s', false⟩
        | Except.error e => ⟨Except.error e, s, false⟩
    | none =>
      if balanceOf s payer < (a : Int) + (maxFee : Int) then
        ⟨Except.error WalletError.InsufficientBalanceError, s, false⟩
      else
        match nodeOutcome with
        | NodeOutcome.success feeAmt =>
          match appendBalanced s (externalSendEntries payer inv.hash a feeAmt inv.memo) with
          | Except.ok s' => ⟨Except.ok (PayOutcome.success feeAmt), s', true⟩
          | Except.error e => ⟨Except.error e, s, true⟩
        | NodeOutcome.pending =>
          match appendBalanced s (pendingEntries payer inv.hash a inv.memo) with
          | Except.ok s' => ⟨Except.ok PayOutcome.pending, s', true⟩
          | Except.error e => ⟨Except.error e, s, true⟩
        | NodeOutcome.failure reason => ⟨Except.error reason, s, true⟩

/-- Marks a row settled if it is the pending row of the given correlation
hash; amounts are never touched (spec §4.5, "no amount change"). -/
def settleMark (h : String) (e : LedgerEntry) : LedgerEntry :=
  if e.hash = h ∧ e.substate = SubState.pending then
    { e with substate := SubState.settled }
  else e

/-- Modelled from the spec: the out-of-band settlement event for a
pending payment (spec §4.5) — finalizes the provisional rows of the
hash (sub-state → settled) with no amount change. -/
def settlePending (s : WalletState) (h : String) : WalletState :=
  { s with ledger := s.ledger.map (settleMark h) }

/-- Marks a row reversed if it is the pending row of the given
correlation hash. -/
def reverseMark (h : String) (e : LedgerEntry) : LedgerEntry :=
  if e.hash = h ∧ e.substate = SubState.pending then
    { e with substate := SubState.reversed }
  else e

/-- The equal-and-opposite compensating row of a provisional row
(spec §4.5, sub-state → reversed). -/
def compensate (e : LedgerEntry) : LedgerEntry :=
  { e with amount := -e.amount, substate := SubState.reversed }

/-- Modelled from the spec: the expiry/cancel event for a pending payment
(spec §4.5) — appends an equal-and-opposite compensating entry for each
provisional row of the hash and marks the originals reversed, restoring
the payer's balance. -/
def cancelPending (s : WalletState) (h : String) : WalletState :=
  { s with ledger :=
      ((s.ledger.filter (fun e => e.hash = h ∧ e.substate = SubState.pending)).map
        compensate) ++ s.ledger.map (reverseMark h) }

/-- Whether an `onboarding_earn` row already exists for the given
(user, reward-id) pair; reward ids double as correlation hashes. -/
def hasEarn (l : List LedgerEntry) (uid rid : String) : Bool :=
  l.any (fun e => e.accountPath = uid ∧ e.txType = TxType.onboarding_earn ∧
    e.hash = rid)

/-- Modelled from the spec: the balanced entry pair issued for one
onboarding reward (spec §4.6) — credit the user, debit the system
rewards account for the reward's fixed amount. -/
def earnEntries (uid rid : String) (amt : Nat) : List LedgerEntry :=
  [ { accountPath := uid, amount := (amt : Int), hash := rid,
      txType := TxType.onboarding_earn, memo := none,
      substate := SubState.base },
    { accountPath := rewardsAccount, amount := -(amt : Int), hash := rid,
      txType := TxType.onboarding_earn, memo := none,
      substate := SubState.base } ]

/-- Modelled from the spec: one step of the Reward Issuer (spec §4.6) —
if an `onboarding_earn` row for (uid, rid) already exists, skip
silently; otherwise append the balanced reward pair. -/
def addEarnOne (rewardAmt : String → Nat) (uid rid : String)
    (s : WalletState) : WalletState :=
  if hasEarn s.ledger uid rid then s
  else
    match appendBalanced s (earnEntries uid rid (rewardAmt rid)) with
    | Except.ok s' => s'
    | Except.error _ => s

/-- Modelled from the spec: the Reward Issuer (spec §4.6),
`issue(userId, rewardIds)` — processes the ordered set of reward ids
left to right, idempotently. -/
def addEarn (rewardAmt : String → Nat) (uid : String) (rids : List String)
    (s : WalletState) : WalletState :=
  rids.foldl (fun st rid => addEarnOne rewardAmt uid rid st) s

/-- The balanced entry pair of an inbound settlement: credit the
invoice's issuer, debit the escrow, tagged `external_receive`. -/
def receiveEntries (uid h : String) (a : Nat) (memo : Option String) :
    List LedgerEntry :=
  [ { accountPath := uid, amount := (a : Int), hash := h,
      txType := TxType.external_receive, memo := memo,
      substate := SubState.base },
    { accountPath := lightningAccount, amount := -(a : Int), hash := h,
      txType := TxType.external_receive, memo := memo,
      substate := SubState.base } ]

/-- Modelled from the spec: inbound settlement of an invoice previously
issued by a user (spec §6's settlement callback against an invoice
registered by `addInvoice`) — if the hash resolves in the Invoice
Directory, append the balanced `receiveEntries` pair, correlated by the
invoice hash. -/
def receivePayment (s : WalletState) (h : String) (a : Nat)
    (memo : Option String) : WalletState :=
  match lookupInvoice s h with
  | some uid =>
    match appendBalanced s (receiveEntries uid h a memo) with
    | Except.ok s' => s'
    | Except.error _ => s
  | none => s

/-- User-facing projection of a ledger row (spec §3, Transaction view). -/
structure TransactionView where
  hash : String
  txType : TxType
  amount : Int
  description : String
  memo : Option String
  deriving DecidableEq, Repr

/-- Human-readable description derived from the type tag and direction
(spec §4.7): "Payment sent" / "Payment received" for on-us transfers
and equivalent text for external transfers and earns. -/
def describe (e : LedgerEntry) : String :=
  match e.txType with
  | TxType.on_us_send => "Payment sent"
  | TxType.on_us_receive => "Payment received"
  | TxType.external_send => "Payment sent"
  | TxType.external_receive => "Payment received"
  | TxType.onboarding_earn => "Earn"
  | TxType.fee => "Fee"

/-- Modelled from the spec: `getTransactions` of the Wallet Facade
(spec §4.7) — the user's ledger rows, most recent first, as Transaction
views. -/
def getTransactions (s : WalletState) (account : String) :
    List TransactionView :=
  (entriesFor s account).map (fun e =>
    ⟨e.hash, e.txType, e.amount, describe e, e.memo⟩)

/-- The states reachable from the empty initial state by completed
operations of the Wallet Facade: invoice registration, payment
(whatever its arguments and node outcome), reward issuance, inbound
settlement, and the out-of-band settlement/expiry events of pending
payments. -/
inductive Reachable : WalletState → Prop
  | init : Reachable ⟨[], []⟩
  | addInvoice {s s' : WalletState} (h uid : String) :
      Reachable s → registerInvoice s h uid = Except.ok s' → Reachable s'
  | payStep {s : WalletState} (payer : String) (inv : DecodedInvoice)
      (explicitAmount : Option Nat) (nodeOutcome : NodeOutcome)
      (maxFee : Nat) : Reachable s →
      Reachable (pay payer inv explicitAmount nodeOutcome maxFee s).state
  | earnStep {s : WalletState} (rewardAmt : String → Nat) (uid : String)
      (rids : List String) : Reachable s →
      Reachable (addEarn rewardAmt uid rids s)
  | receiveStep {s : WalletState} (h : String) (a : Nat)
      (memo : Option String) : Reachable s →
      Reachable (receivePayment s h a memo)
  | settleStep {s : WalletState} (h : String) : Reachable s →
      Reachable (settlePending s h)
  | cancelStep {s : WalletState} (h : String) : Reachable s →
      Reachable (cancelPending s h)

/-- Error result of the push-notifications service
(`src/services/notifications/push-notifications.ts`). -/
inductive NotificationsServiceErr
  | InvalidDevice
  | DeviceTokensNotRegistered (tokens : List String)
  | UnreachableServer (msg : String)
  | Unknown (msg : String)
  deriving DecidableEq, Repr

/-- Return value of `sendToDevice`/`sendNotification`: `true` on success
or a `NotificationsServiceError`. -/
inductive SendResult
  | ok
  | err (e : NotificationsServiceErr)
  deriving DecidableEq, Repr

/-- The message payload built by `sendNotification`
(push-notifications.ts lines 96-103). -/
structure PushMessage where
  title : String
  body : String
  data : List (String × String)
  deriving DecidableEq, Repr

/-- One per-token result item of a Firebase `sendToDevice` response. -/
structure MessagingResultItem where
  errorCode : Option String
  errorMessage : Option String
  deriving DecidableEq, Repr

/-- A Firebase `sendToDevice` response (`response.results`). -/
structure MessagingResponse where
  results : List MessagingResultItem
  deriving DecidableEq, Repr

/-- The invalid-token collection loop of `sendToDevice`
(push-notifications.ts lines 54-68): a token is collected when the
result list matches the token list in length and its item's error code
is `messaging/registration-token-not-registered`. -/
def collectInvalidTokens (tokens : List String)
    (response : MessagingResponse) : List String :=
  if response.results.length = tokens.length then
    ((response.results.zip tokens).filter (fun p =>
      p.1.errorCode = some "messaging/registration-token-not-registered")).map
      (fun p => p.2)
  else []

/-- Result of a send attempt together with whether the Firebase gateway
was actually invoked. -/
structure SendOutput where
  result : SendResult
  deliveryAttempted : Bool
  deriving DecidableEq, Repr

/-- `sendToDevice` (push-notifications.ts lines 38-87).  The `messaging`
module is `none` when no Firebase credentials were loaded (lines
28-36); in that case the function logs and returns `true` without
sending.  Otherwise the gateway is invoked and tokens reported as
not-registered produce a `DeviceTokensNotRegisteredNotificationsServiceError`. -/
def sendToDevice
    (messaging : Option (List String → PushMessage → MessagingResponse))
    (tokens : List String) (message : PushMessage) : SendOutput :=
  match messaging with
  | none => ⟨SendResult.ok, false⟩
  | some gateway =>
    let response := gateway tokens message
    let invalidTokens := collectInvalidTokens tokens response
    if invalidTokens.length > 0 then
      ⟨SendResult.err (NotificationsServiceErr.DeviceTokensNotRegistered
        invalidTokens), true⟩
    else ⟨SendResult.ok, true⟩

/-- `PushNotificationsService().sendNotification`
(push-notifications.ts lines 90-116): keeps only device tokens of
length exactly 163; with no surviving token it returns
`InvalidDeviceNotificationsServiceError` without attempting delivery,
otherwise it delegates to `sendToDevice`. -/
def sendNotification
    (messaging : Option (List String → PushMessage → MessagingResponse))
    (deviceTokens : List String) (title body : String)
    (data : List (String × String)) : SendOutput :=
  let message : PushMessage := ⟨title, body, data⟩
  let tokens := deviceTokens.filter (fun token => token.length = 163)
  if tokens.length ≤ 0 then
    ⟨SendResult.err NotificationsServiceErr.InvalidDevice, false⟩
  else sendToDevice messaging tokens message

/-! ### Basic algebra of ledger sums -/

theorem amountSum_nil : amountSum [] = 0 := rfl

theorem amountSum_cons (e : LedgerEntry) (l : List LedgerEntry) :
    amountSum (e :: l) = e.amount + amountSum l := by
  simp [amountSum]

theorem amountSum_append (E l : List LedgerEntry) :
    amountSum (E ++ l) = amountSum E + amountSum l := by
  simp [amountSum]

theorem hashSum_append (h : String) (E l : List LedgerEntry) :
    hashSum h (E ++ l) = hashSum h E + hashSum h l := by
  simp [hashSum, List.filter_append, amountSum_append]

theorem pendingSum_append (h : String) (E l : List LedgerEntry) :
    pendingSum h (E ++ l) = pendingSum h E + pendingSum h l := by
  simp [pendingSum, List.filter_append, amountSum_append]

theorem ledgerBalance_append (E l : List LedgerEntry) (u : String) :
    ledgerBalance (E ++ l) u = ledgerBalance E u + ledgerBalance l u := by
  simp [ledgerBalance, List.filter_append, amountSum_append]

theorem ledgerBalance_cons (e : LedgerEntry) (l : List LedgerEntry)
    (u : String) : ledgerBalance (e :: l) u =
      (if e.accountPath = u then e.amount else 0) + ledgerBalance l u := by
  by_cases hc : e.accountPath = u <;>
    simp [ledgerBalance, List.filter_cons, hc, amountSum_cons]

theorem balanceOf_def (s : WalletState) (u : String) :
    balanceOf s u = ledgerBalance s.ledger u := rfl

/-! ### Field-preservation lemmas for settlement maps -/

theorem settleMark_amount (h : String) (e : LedgerEntry) :
    (settleMark h e).amount = e.amount := by
  unfold settleMark; split <;> rfl

theorem settleMark_hash (h : String) (e : LedgerEntry) :
    (settleMark h e).hash = e.hash := by
  unfold settleMark; split <;> rfl

theorem settleMark_accountPath (h : String) (e : LedgerEntry) :
    (settleMark h e).accountPath = e.accountPath := by
  unfold settleMark; split <;> rfl

theorem reverseMark_amount (h : String) (e : LedgerEntry) :
    (reverseMark h e).amount = e.amount := by
  unfold reverseMark; split <;> rfl

theorem reverseMark_hash (h : String) (e : LedgerEntry) :
    (reverseMark h e).hash = e.hash := by
  unfold reverseMark; split <;> rfl

theorem reverseMark_accountPath (h : String) (e : LedgerEntry) :
    (reverseMark h e).accountPath = e.accountPath := by
  unfold reverseMark; split <;> rfl

theorem amountSum_map_of_amount_eq (f : LedgerEntry → LedgerEntry)
    (hf : ∀ e, (f e).amount = e.amount) (l : List LedgerEntry) :
    amountSum (l.map f) = amountSum l := by
  induction l with
  | nil => rfl
  | cons e t ih => simp [List.map_cons, amountSum_cons, hf, ih]

theorem ledgerBalance_map (f : LedgerEntry → LedgerEntry)
    (hamt : ∀ e, (f e).amount = e.amount)
    (hacc : ∀ e, (f e).accountPath = e.accountPath)
    (l : List LedgerEntry) (u : String) :
    ledgerBalance (l.map f) u = ledgerBalance l u := by
  induction l with
  | nil => rfl
  | cons e t ih =>
    by_cases hc : e.accountPath = u
    · simp only [List.map_cons, ledgerBalance_cons, hacc, hamt, ih]
    · simp only [List.map_cons, ledgerBalance_cons, hacc, hamt, ih]

theorem hashSum_map (f : LedgerEntry → LedgerEntry)
    (hamt : ∀ e, (f e).amount = e.amount)
    (hhash : ∀ e, (f e).hash = e.hash)
    (h : String) (l : List LedgerEntry) :
    hashSum h (l.map f) = hashSum h l := by
  induction l with
  | nil => rfl
  | cons e t ih =>
    by_cases hc : e.hash = h
    · simp only [hashSum, List.map_cons, List.filter_cons] at *
      simp [hhash, hc, amountSum_cons, hamt, ih]
    · simp only [hashSum, List.map_cons, List.filter_cons] at *
      simp [hhash, hc, ih]

theorem filter_pending_map_settle (h : String) (l : List LedgerEntry) :
    (l.map (settleMark h)).filter
      (fun e => e.hash = h ∧ e.substate = SubState.pending) = [] := by
  rw [List.filter_eq_nil_iff]
  intro e' he'
  obtain ⟨e, _, rfl⟩ := List.mem_map.mp he'
  by_cases hc : e.hash = h ∧ e.substate = SubState.pending
  · simp [settleMark, hc]
  · simp only [settleMark, if_neg hc]
    simpa using hc

theorem pendingSum_map_settle (h : String) (l : List LedgerEntry) :
    pendingSum h (l.map (settleMark h)) = 0 := by
  unfold pendingSum
  rw [filter_pending_map_settle]
  rfl

theorem filter_pending_map_settle_ne (h h' : String) (hne : h' ≠ h)
    (l : List LedgerEntry) :
    (l.map (settleMark h)).filter
        (fun e => e.hash = h' ∧ e.substate = SubState.pending)
      = l.filter (fun e => e.hash = h' ∧ e.substate = SubState.pending) := by
  induction l with
  | nil => rfl
  | cons e t ih =>
    rw [List.map_cons]
    by_cases hq : e.hash = h' ∧ e.substate = SubState.pending
    · have hid : settleMark h e = e := by
        unfold settleMark
        rw [if_neg]
        rintro ⟨h1, _⟩
        exact hne (hq.1 ▸ h1)
      rw [hid, List.filter_cons_of_pos (by simpa using hq),
        List.filter_cons_of_pos (by simpa using hq), ih]
    · by_cases hc : e.hash = h ∧ e.substate = SubState.pending
      · have hq' : ¬ ((settleMark h e).hash = h' ∧
            (settleMark h e).substate = SubState.pending) := by
          simp [settleMark, hc]
        rw [List.filter_cons_of_neg (by simpa using hq'),
          List.filter_cons_of_neg (by simpa using hq), ih]
      · have hid : settleMark h e = e := by unfold settleMark; rw [if_neg hc]
        rw [hid, List.filter_cons_of_neg (by simpa using hq),
          List.filter_cons_of_neg (by simpa using hq), ih]

theorem pendingSum_map_settle_ne (h h' : String) (hne : h' ≠ h)
    (l : List LedgerEntry) :
    pendingSum h' (l.map (settleMark h)) = pendingSum h' l := by
  unfold pendingSum
  rw [filter_pending_map_settle_ne h h' hne]

theorem filter_pending_map_reverse (h : String) (l : List LedgerEntry) :
    (l.map (reverseMark h)).filter
      (fun e => e.hash = h ∧ e.substate = SubState.pending) = [] := by
  rw [List.filter_eq_nil_iff]
  intro e' he'
  obtain ⟨e, _, rfl⟩ := List.mem_map.mp he'
  by_cases hc : e.hash = h ∧ e.substate = SubState.pending
  · simp [reverseMark, hc]
  · simp only [reverseMark, if_neg hc]
    simpa using hc

theorem pendingSum_map_reverse (h : String) (l : List LedgerEntry) :
    pendingSum h (l.map (reverseMark h)) = 0 := by
  unfold pendingSum
  rw [filter_pending_map_reverse]
  rfl

theorem filter_pending_map_reverse_ne (h h' : String) (hne : h' ≠ h)
    (l : List LedgerEntry) :
    (l.map (reverseMark h)).filter
        (fun e => e.hash = h' ∧ e.substate = SubState.pending)
      = l.filter (fun e => e.hash = h' ∧ e.substate = SubState.pending) := by
  induction l with
  | nil => rfl
  | cons e t ih =>
    rw [List.map_cons]
    by_cases hq : e.hash = h' ∧ e.substate = SubState.pending
    · have hid : reverseMark h e = e := by
        unfold reverseMark
        rw [if_neg]
        rintro ⟨h1, _⟩
        exact hne (hq.1 ▸ h1)
      rw [hid, List.filter_cons_of_pos (by simpa using hq),
        List.filter_cons_of_pos (by simpa using hq), ih]
    · by_cases hc : e.hash = h ∧ e.substate = SubState.pending
      · have hq' : ¬ ((reverseMark h e).hash = h' ∧
            (reverseMark h e).substate = SubState.pending) := by
          simp [reverseMark, hc]
        rw [List.filter_cons_of_neg (by simpa using hq'),
          List.filter_cons_of_neg (by simpa using hq), ih]
      · have hid : reverseMark h e = e := by unfold reverseMark; rw [if_neg hc]
        rw [hid, List.filter_cons_of_neg (by simpa using hq),
          List.filter_cons_of_neg (by simpa using hq), ih]

theorem pendingSum_map_reverse_ne (h h' : String) (hne : h' ≠ h)
    (l : List LedgerEntry) :
    pendingSum h' (l.map (reverseMark h)) = pendingSum h' l := by
  unfold pendingSum
  rw [filter_pending_map_reverse_ne h h' hne]

/-! ### Sums of the concrete balanced entry sets -/

theorem hashSum_of_all_hash {h : String} {L : List LedgerEntry}
    (hall : ∀ e ∈ L, e.hash = h) : hashSum h L = amountSum L := by
  unfold hashSum
  rw [List.filter_eq_self.mpr]
  intro e he
  simpa using hall e he

theorem hashSum_of_all_hash_ne {h h' : String} (hne : h' ≠ h)
    {L : List LedgerEntry} (hall : ∀ e ∈ L, e.hash = h) :
    hashSum h' L = 0 := by
  unfold hashSum
  rw [List.filter_eq_nil_iff.mpr]
  · rfl
  · intro e he
    simp only [decide_eq_true_eq]
    rw [hall e he]
    exact fun hh => hne hh.symm

theorem hashSum_all_zero {h : String} {L : List LedgerEntry}
    (hall : ∀ e ∈ L, e.hash = h) (hsum : amountSum L = 0) (h' : String) :
    hashSum h' L = 0 := by
  by_cases hc : h' = h
  · subst hc
    rw [hashSum_of_all_hash hall]
    exact hsum
  · exact hashSum_of_all_hash_ne hc hall

theorem pendingSum_of_no_pending {L : List LedgerEntry}
    (hall : ∀ e ∈ L, e.substate ≠ SubState.pending) (h' : String) :
    pendingSum h' L = 0 := by
  unfold pendingSum
  rw [List.filter_eq_nil_iff.mpr]
  · rfl
  · intro e he
    simp only [decide_eq_true_eq, not_and]
    exact fun _ => hall e he

theorem pendingSum_of_all_pending {h : String} {L : List LedgerEntry}
    (hall : ∀ e ∈ L, e.hash = h ∧ e.substate = SubState.pending)
    (hsum : amountSum L = 0) (h' : String) : pendingSum h' L = 0 := by
  by_cases hc : h' = h
  · subst hc
    unfold pendingSum
    rw [List.filter_eq_self.mpr]
    · exact hsum
    · intro e he
      simpa using hall e he
  · unfold pendingSum
    rw [List.filter_eq_nil_iff.mpr]
    · rfl
    · intro e he
      simp only [decide_eq_true_eq, not_and]
      intro hh
      exact fun _ => hc (hh.symm.trans (hall e he).1)

theorem amountSum_onUs (payer payee h : String) (a : Nat)
    (memo : Option String) : amountSum (onUsEntries payer payee h a memo) = 0 := by
  simp [onUsEntries, amountSum]

theorem amountSum_externalSend (payer h : String) (a feeAmt : Nat)
    (memo : Option String) :
    amountSum (externalSendEntries payer h a feeAmt memo) = 0 := by
  simp [externalSendEntries, amountSum]
  ring

theorem amountSum_pendingEntries (payer h : String) (a : Nat)
    (memo : Option String) : amountSum (pendingEntries payer h a memo) = 0 := by
  simp [pendingEntries, amountSum]

theorem amountSum_earnEntries (uid rid : String) (amt : Nat) :
    amountSum (earnEntries uid rid amt) = 0 := by
  simp [earnEntries, amountSum]

theorem onUs_all_hash (payer payee h : String) (a : Nat)
    (memo : Option String) :
    ∀ e ∈ onUsEntries payer payee h a memo, e.hash = h := by
  intro e he
  simp only [onUsEntries, List.mem_cons, List.not_mem_nil, or_false] at he
  rcases he with rfl | rfl <;> rfl

theorem externalSend_all_hash (payer h : String) (a feeAmt : Nat)
    (memo : Option String) :
    ∀ e ∈ externalSendEntries payer h a feeAmt memo, e.hash = h := by
  intro e he
  simp only [externalSendEntries, List.mem_cons, List.not_mem_nil,
    or_false] at he
  rcases he with rfl | rfl | rfl <;> rfl

theorem pendingEntries_all (payer h : String) (a : Nat)
    (memo : Option String) :
    ∀ e ∈ pendingEntries payer h a memo,
      e.hash = h ∧ e.substate = SubState.pending := by
  intro e he
  simp only [pendingEntries, List.mem_cons, List.not_mem_nil, or_false] at he
  rcases he with rfl | rfl <;> exact ⟨rfl, rfl⟩

theorem earn_all_hash (uid rid : String) (amt : Nat) :
    ∀ e ∈ earnEntries uid rid amt, e.hash = rid := by
  intro e he
  simp only [earnEntries, List.mem_cons, List.not_mem_nil, or_false] at he
  rcases he with rfl | rfl <;> rfl

theorem onUs_no_pending (payer payee h : String) (a : Nat)
    (memo : Option String) :
    ∀ e ∈ onUsEntries payer payee h a memo,
      e.substate ≠ SubState.pending := by
  intro e he
  simp only [onUsEntries, List.mem_cons, List.not_mem_nil, or_false] at he
  rcases he with rfl | rfl <;> simp

theorem externalSend_no_pending (payer h : String) (a feeAmt : Nat)
    (memo : Option String) :
    ∀ e ∈ externalSendEntries payer h a feeAmt memo,
      e.substate ≠ SubState.pending := by
  intro e he
  simp only [externalSendEntries, List.mem_cons, List.not_mem_nil,
    or_false] at he
  rcases he with rfl | rfl | rfl <;> simp

theorem earn_no_pending (uid rid : String) (amt : Nat) :
    ∀ e ∈ earnEntries uid rid amt, e.substate ≠ SubState.pending := by
  intro e he
  simp only [earnEntries, List.mem_cons, List.not_mem_nil, or_false] at he
  rcases he with rfl | rfl <;> simp

theorem appendBalanced_of_zero {s : WalletState} {E : List LedgerEntry}
    (hz : amountSum E = 0) :
    appendBalanced s E = Except.ok { s with ledger := E ++ s.ledger } := by
  unfold appendBalanced
  rw [if_pos hz]

theorem appendBalanced_ok {s s' : WalletState} {E : List LedgerEntry}
    (h : appendBalanced s E = Except.ok s') :
    s'.ledger = E ++ s.ledger ∧ s'.invoiceDir = s.invoiceDir ∧
      amountSum E = 0 := by
  unfold appendBalanced at h
  split at h
  · cases h
    exact ⟨rfl, rfl, by assumption⟩
  · cases h

/-! ### The double-entry invariant and its preservation -/

/-- The ledger invariant: the system-wide amount sum is zero (I5), every
correlation hash's amount sum is zero (I1), and every hash's pending
rows also sum to zero (the strengthening that makes cancellation
balanced). -/
def LedgerInv (l : List LedgerEntry) : Prop :=
  amountSum l = 0 ∧ (∀ h, hashSum h l = 0) ∧ ∀ h, pendingSum h l = 0

theorem LedgerInv_nil : LedgerInv [] :=
  ⟨rfl, fun _ => rfl, fun _ => rfl⟩

theorem LedgerInv_append {E l : List LedgerEntry} (hl : LedgerInv l)
    (h1 : amountSum E = 0) (h2 : ∀ h, hashSum h E = 0)
    (h3 : ∀ h, pendingSum h E = 0) : LedgerInv (E ++ l) := by
  obtain ⟨g1, g2, g3⟩ := hl
  refine ⟨?_, fun h => ?_, fun h => ?_⟩
  · rw [amountSum_append, h1, g1, add_zero]
  · rw [hashSum_append, h2 h, g2 h, add_zero]
  · rw [pendingSum_append, h3 h, g3 h, add_zero]

theorem LedgerInv_onUs_append {l : List LedgerEntry} (hl : LedgerInv l)
    (payer payee h : String) (a : Nat) (memo : Option String) :
    LedgerInv (onUsEntries payer payee h a memo ++ l) :=
  LedgerInv_append hl (amountSum_onUs payer payee h a memo)
    (hashSum_all_zero (onUs_all_hash payer payee h a memo)
      (amountSum_onUs payer payee h a memo))
    (pendingSum_of_no_pending (onUs_no_pending payer payee h a memo))

theorem LedgerInv_externalSend_append {l : List LedgerEntry}
    (hl : LedgerInv l) (payer h : String) (a feeAmt : Nat)
    (memo : Option String) :
    LedgerInv (externalSendEntries payer h a feeAmt memo ++ l) :=
  LedgerInv_append hl (amountSum_externalSend payer h a feeAmt memo)
    (hashSum_all_zero (externalSend_all_hash payer h a feeAmt memo)
      (amountSum_externalSend payer h a feeAmt memo))
    (pendingSum_of_no_pending (externalSend_no_pending payer h a feeAmt memo))

theorem LedgerInv_pending_append {l : List LedgerEntry} (hl : LedgerInv l)
    (payer h : String) (a : Nat) (memo : Option String) :
    LedgerInv (pendingEntries payer h a memo ++ l) :=
  LedgerInv_append hl (amountSum_pendingEntries payer h a memo)
    (hashSum_all_zero (fun e he => (pendingEntries_all payer h a memo e he).1)
      (amountSum_pendingEntries payer h a memo))
    (pendingSum_of_all_pending (pendingEntries_all payer h a memo)
      (amountSum_pendingEntries payer h a memo))

theorem LedgerInv_earn_append {l : List LedgerEntry} (hl : LedgerInv l)
    (uid rid : String) (amt : Nat) :
    LedgerInv (earnEntries uid rid amt ++ l) :=
  LedgerInv_append hl (amountSum_earnEntries uid rid amt)
    (hashSum_all_zero (earn_all_hash uid rid amt)
      (amountSum_earnEntries uid rid amt))
    (pendingSum_of_no_pending (earn_no_pending uid rid amt))

theorem registerInvoice_ledger {s s' : WalletState} {h uid : String}
    (hr : registerInvoice s h uid = Except.ok s') : s'.ledger = s.ledger := by
  unfold registerInvoice at hr
  split at hr
  · cases hr
  · cases hr
    rfl

theorem inv_pay (payer : String) (inv : DecodedInvoice)
    (explicitAmount : Option Nat) (nodeOutcome : NodeOutcome) (maxFee : Nat)
    (s : WalletState) (hs : LedgerInv s.ledger) :
    LedgerInv (pay payer inv explicitAmount nodeOutcome maxFee s).state.ledger := by
  unfold pay
  split
  · exact hs
  · split
    · split
      · exact hs
      · split
        · exact hs
        · split
          · next s' heq =>
            obtain ⟨hl, _, _⟩ := appendBalanced_ok heq
            rw [hl]
            exact LedgerInv_onUs_append hs _ _ _ _ _
          · exact hs
    · split
      · exact hs
      · split
        · split
          · next s' heq =>
            obtain ⟨hl, _, _⟩ := appendBalanced_ok heq
            rw [hl]
            exact LedgerInv_externalSend_append hs _ _ _ _ _
          · exact hs
        · split
          · next s' heq =>
            obtain ⟨hl, _, _⟩ := appendBalanced_ok heq
            rw [hl]
            exact LedgerInv_pending_append hs _ _ _ _
          · exact hs
        · exact hs

theorem amountSum_receiveEntries (uid h : String) (a : Nat)
    (memo : Option String) : amountSum (receiveEntries uid h a memo) = 0 := by
  simp [receiveEntries, amountSum]

theorem receive_all_hash (uid h : String) (a : Nat) (memo : Option String) :
    ∀ e ∈ receiveEntries uid h a memo, e.hash = h := by
  intro e he
  simp only [receiveEntries, List.mem_cons, List.not_mem_nil, or_false] at he
  rcases he with rfl | rfl <;> rfl

theorem receive_no_pending (uid h : String) (a : Nat)
    (memo : Option String) :
    ∀ e ∈ receiveEntries uid h a memo, e.substate ≠ SubState.pending := by
  intro e he
  simp only [receiveEntries, List.mem_cons, List.not_mem_nil, or_false] at he
  rcases he with rfl | rfl <;> simp

theorem inv_addEarnOne (rewardAmt : String → Nat) (uid rid : String)
    (s : WalletState) (hs : LedgerInv s.ledger) :
    LedgerInv (addEarnOne rewardAmt uid rid s).ledger := by
  unfold addEarnOne
  split
  · exact hs
  · split
    · next s' heq =>
      obtain ⟨hl, _, _⟩ := appendBalanced_ok heq
      rw [hl]
      exact LedgerInv_earn_append hs _ _ _
    · exact hs

theorem addEarn_nil (rewardAmt : String → Nat) (uid : String)
    (s : WalletState) : addEarn rewardAmt uid [] s = s := rfl

theorem addEarn_cons (rewardAmt : String → Nat) (uid r : String)
    (t : List String) (s : WalletState) :
    addEarn rewardAmt uid (r :: t) s =
      addEarn rewardAmt uid t (addEarnOne rewardAmt uid r s) := rfl

theorem inv_addEarn (rewardAmt : String → Nat) (uid : String)
    (rids : List String) (s : WalletState) (hs : LedgerInv s.ledger) :
    LedgerInv (addEarn rewardAmt uid rids s).ledger := by
  induction rids generalizing s with
  | nil => exact hs
  | cons r t ih =>
    rw [addEarn_cons]
    exact ih _ (inv_addEarnOne rewardAmt uid r s hs)

theorem inv_receivePayment (s : WalletState) (h : String) (a : Nat)
    (memo : Option String) (hs : LedgerInv s.ledger) :
    LedgerInv (receivePayment s h a memo).ledger := by
  unfold receivePayment
  split
  · split
    · next s' heq =>
      obtain ⟨hl, _, _⟩ := appendBalanced_ok heq
      rw [hl]
      exact LedgerInv_append hs (amountSum_receiveEntries _ _ _ _)
        (hashSum_all_zero (receive_all_hash _ _ _ _)
          (amountSum_receiveEntries _ _ _ _))
        (pendingSum_of_no_pending (receive_no_pending _ _ _ _))
    · exact hs
  · exact hs

theorem inv_settlePending (s : WalletState) (h : String)
    (hs : LedgerInv s.ledger) : LedgerInv (settlePending s h).ledger := by
  obtain ⟨g1, g2, g3⟩ := hs
  refine ⟨?_, fun h' => ?_, fun h' => ?_⟩
  · rw [show (settlePending s h).ledger = s.ledger.map (settleMark h) from rfl,
      amountSum_map_of_amount_eq _ (settleMark_amount h)]
    exact g1
  · rw [show (settlePending s h).ledger = s.ledger.map (settleMark h) from rfl,
      hashSum_map _ (settleMark_amount h) (settleMark_hash h)]
    exact g2 h'
  · rw [show (settlePending s h).ledger = s.ledger.map (settleMark h) from rfl]
    by_cases hc : h' = h
    · subst hc
      exact pendingSum_map_settle h' s.ledger
    · rw [pendingSum_map_settle_ne h h' hc]
      exact g3 h'

theorem compensate_hash (e : LedgerEntry) : (compensate e).hash = e.hash := rfl

theorem amountSum_map_compensate (L : List LedgerEntry) :
    amountSum (L.map compensate) = -amountSum L := by
  induction L with
  | nil => rfl
  | cons e t ih =>
    simp only [List.map_cons, amountSum_cons, compensate, ih]
    ring

theorem inv_cancelPending (s : WalletState) (h : String)
    (hs : LedgerInv s.ledger) : LedgerInv (cancelPending s h).ledger := by
  obtain ⟨g1, g2, g3⟩ := hs
  have hledger : (cancelPending s h).ledger =
      ((s.ledger.filter
        (fun e => e.hash = h ∧ e.substate = SubState.pending)).map
          compensate) ++ s.ledger.map (reverseMark h) := rfl
  have hPsum : amountSum (s.ledger.filter
      (fun e => e.hash = h ∧ e.substate = SubState.pending)) = 0 := g3 h
  have hPhash : ∀ e ∈ s.ledger.filter
      (fun e => e.hash = h ∧ e.substate = SubState.pending), e.hash = h := by
    intro e he
    have hmem := List.mem_filter.mp he
    exact (by simpa using hmem.2 : e.hash = h ∧ e.substate = SubState.pending).1
  have hCsum : amountSum ((s.ledger.filter
      (fun e => e.hash = h ∧ e.substate = SubState.pending)).map
        compensate) = 0 := by
    rw [amountSum_map_compensate, hPsum, neg_zero]
  have hChash : ∀ e ∈ (s.ledger.filter
      (fun e => e.hash = h ∧ e.substate = SubState.pending)).map compensate,
      e.hash = h := by
    intro e he
    obtain ⟨e0, he0, rfl⟩ := List.mem_map.mp he
    exact hPhash e0 he0
  have hCnp : ∀ e ∈ (s.ledger.filter
      (fun e => e.hash = h ∧ e.substate = SubState.pending)).map compensate,
      e.substate ≠ SubState.pending := by
    intro e he
    obtain ⟨e0, _, rfl⟩ := List.mem_map.mp he
    simp [compensate]
  refine ⟨?_, fun h' => ?_, fun h' => ?_⟩
  · rw [hledger, amountSum_append, hCsum,
      amountSum_map_of_amount_eq _ (reverseMark_amount h), g1, add_zero]
  · rw [hledger, hashSum_append,
      hashSum_map _ (reverseMark_amount h) (reverseMark_hash h), g2 h',
      hashSum_all_zero hChash hCsum h', add_zero]
  · rw [hledger, pendingSum_append, pendingSum_of_no_pending hCnp h']
    by_cases hc : h' = h
    · subst hc
      rw [pendingSum_map_reverse, add_zero]
    · rw [pendingSum_map_reverse_ne h h' hc, g3 h', add_zero]

theorem reachable_ledgerInv {s : WalletState} (h : Reachable s) :
    LedgerInv s.ledger := by
  induction h with
  | init => exact LedgerInv_nil
  | addInvoice hsh uid _ heq ih =>
    rw [registerInvoice_ledger heq]
    exact ih
  | payStep payer inv explicitAmount nodeOutcome maxFee _ ih =>
    exact inv_pay payer inv explicitAmount nodeOutcome maxFee _ ih
  | earnStep rewardAmt uid rids _ ih =>
    exact inv_addEarn rewardAmt uid rids _ ih
  | receiveStep hsh a memo _ ih =>
    exact inv_receivePayment _ hsh a memo ih
  | settleStep hsh _ ih =>
    exact inv_settlePending _ hsh ih
  | cancelStep hsh _ ih =>
    exact inv_cancelPending _ hsh ih

/-! ### Reward Issuer: idempotence, balance effect, uniqueness -/

/-- Number of `onboarding_earn` rows of a (user, reward-id) pair
(invariant I3 bounds this by one). -/
def countEarn (l : List LedgerEntry) (uid rid : String) : Nat :=
  (l.filter (fun e => e.accountPath = uid ∧
    e.txType = TxType.onboarding_earn ∧ e.hash = rid)).length

theorem appendBalanced_earn (s : WalletState) (uid rid : String) (amt : Nat) :
    appendBalanced s (earnEntries uid rid amt) =
      Except.ok { s with ledger := earnEntries uid rid amt ++ s.ledger } :=
  appendBalanced_of_zero (amountSum_earnEntries uid rid amt)

theorem addEarnOne_eq (rewardAmt : String → Nat) (uid rid : String)
    (s : WalletState) :
    addEarnOne rewardAmt uid rid s =
      if hasEarn s.ledger uid rid then s
      else { s with
        ledger := earnEntries uid rid (rewardAmt rid) ++ s.ledger } := by
  unfold addEarnOne
  rw [appendBalanced_earn]

theorem hasEarn_append_right {E l : List LedgerEntry} {uid rid : String}
    (h : hasEarn l uid rid = true) : hasEarn (E ++ l) uid rid = true := by
  unfold hasEarn at *
  rw [List.any_append, h, Bool.or_true]

theorem hasEarn_addEarnOne_mono (rewardAmt : String → Nat)
    (uid' rid' uid rid : String) (s : WalletState)
    (h : hasEarn s.ledger uid rid = true) :
    hasEarn (addEarnOne rewardAmt uid' rid' s).ledger uid rid = true := by
  rw [addEarnOne_eq]
  split
  · exact h
  · exact hasEarn_append_right h

theorem hasEarn_addEarnOne_self (rewardAmt : String → Nat) (uid rid : String)
    (s : WalletState) :
    hasEarn (addEarnOne rewardAmt uid rid s).ledger uid rid = true := by
  rw [addEarnOne_eq]
  split
  · assumption
  · unfold hasEarn
    rw [List.any_append]
    have h1 : (earnEntries uid rid (rewardAmt rid)).any
        (fun e => e.accountPath = uid ∧ e.txType = TxType.onboarding_earn ∧
          e.hash = rid) = true := by
      simp [earnEntries]
    rw [h1, Bool.true_or]

theorem hasEarn_addEarn_mono (rewardAmt : String → Nat) (uid' : String)
    (rids : List String) (uid rid : String) (s : WalletState)
    (h : hasEarn s.ledger uid rid = true) :
    hasEarn (addEarn rewardAmt uid' rids s).ledger uid rid = true := by
  induction rids generalizing s with
  | nil => exact h
  | cons r t ih =>
    rw [addEarn_cons]
    exact ih _ (hasEarn_addEarnOne_mono rewardAmt uid' r uid rid s h)

theorem hasEarn_addEarn_all (rewardAmt : String → Nat) (uid : String)
    (rids : List String) (s : WalletState) :
    ∀ rid ∈ rids,
      hasEarn (addEarn rewardAmt uid rids s).ledger uid rid = true := by
  induction rids generalizing s with
  | nil => intro rid hm; cases hm
  | cons r t ih =>
    intro rid hm
    rw [addEarn_cons]
    rcases List.mem_cons.mp hm with rfl | hmt
    · exact hasEarn_addEarn_mono rewardAmt uid t uid rid _
        (hasEarn_addEarnOne_self rewardAmt uid rid s)
    · exact ih _ rid hmt

theorem addEarn_id_of_hasEarn (rewardAmt : String → Nat) (uid : String)
    (rids : List String) (s : WalletState)
    (hall : ∀ rid ∈ rids, hasEarn s.ledger uid rid = true) :
    addEarn rewardAmt uid rids s = s := by
  induction rids with
  | nil => rfl
  | cons r t ih =>
    rw [addEarn_cons, addEarnOne_eq, if_pos (hall r (List.mem_cons_self r t))]
    exact ih (fun rid hm => hall rid (List.mem_cons_of_mem r hm))

theorem addEarn_idempotent (rewardAmt : String → Nat) (uid : String)
    (rids : List String) (s : WalletState) :
    addEarn rewardAmt uid rids (addEarn rewardAmt uid rids s) =
      addEarn rewardAmt uid rids s :=
  addEarn_id_of_hasEarn rewardAmt uid rids _
    (hasEarn_addEarn_all rewardAmt uid rids s)

theorem ledgerBalance_earnEntries (uid rid : String) (amt : Nat)
    (hnu : uid ≠ rewardsAccount) :
    ledgerBalance (earnEntries uid rid amt) uid = (amt : Int) := by
  simp [earnEntries, ledgerBalance_cons, Ne.symm hnu, ledgerBalance,
    amountSum]

theorem hasEarn_append_earn (uid r rid : String) (amt : Nat)
    (l : List LedgerEntry) (hne : rid ≠ r) (hnu : uid ≠ rewardsAccount) :
    hasEarn (earnEntries uid r amt ++ l) uid rid = hasEarn l uid rid := by
  unfold hasEarn
  rw [List.any_append]
  have h1 : (earnEntries uid r amt).any
      (fun e => e.accountPath = uid ∧ e.txType = TxType.onboarding_earn ∧
        e.hash = rid) = false := by
    simp [earnEntries, Ne.symm hne, Ne.symm hnu]
  rw [h1, Bool.false_or]

theorem balance_addEarn (rewardAmt : String → Nat) (uid : String)
    (rids : List String) (s : WalletState) (hnd : rids.Nodup)
    (hfresh : ∀ rid ∈ rids, hasEarn s.ledger uid rid = false)
    (hnu : uid ≠ rewardsAccount) :
    ledgerBalance (addEarn rewardAmt uid rids s).ledger uid =
      ledgerBalance s.ledger uid +
        (rids.map (fun r => (rewardAmt r : Int))).sum := by
  induction rids generalizing s with
  | nil => simp [addEarn_nil]
  | cons r t ih =>
    obtain ⟨hrt, hndt⟩ := List.nodup_cons.mp hnd
    rw [addEarn_cons, addEarnOne_eq,
      if_neg (by simp [hfresh r (List.mem_cons_self r t)])]
    have hfresh' : ∀ rid ∈ t,
        hasEarn (earnEntries uid r (rewardAmt r) ++ s.ledger) uid rid
          = false := by
      intro rid hm
      have hne : rid ≠ r := fun heq => hrt (heq ▸ hm)
      rw [hasEarn_append_earn uid r rid _ _ hne hnu]
      exact hfresh rid (List.mem_cons_of_mem r hm)
    rw [ih _ hndt hfresh']
    rw [show ({ s with
          ledger := earnEntries uid r (rewardAmt r) ++ s.ledger } :
        WalletState).ledger = earnEntries uid r (rewardAmt r) ++ s.ledger
      from rfl]
    rw [ledgerBalance_append, ledgerBalance_earnEntries uid r _ hnu,
      List.map_cons, List.sum_cons]
    ring

theorem countEarn_append (E l : List LedgerEntry) (uid rid : String) :
    countEarn (E ++ l) uid rid = countEarn E uid rid + countEarn l uid rid := by
  simp [countEarn, List.filter_append]

theorem countEarn_earn_self (uid r : String) (amt : Nat)
    (hnu : uid ≠ rewardsAccount) :
    countEarn (earnEntries uid r amt) uid r = 1 := by
  simp [countEarn, earnEntries, Ne.symm hnu]

theorem countEarn_earn_ne (uid r rid : String) (amt : Nat) (hne : rid ≠ r)
    (hnu : uid ≠ rewardsAccount) :
    countEarn (earnEntries uid r amt) uid rid = 0 := by
  simp [countEarn, earnEntries, Ne.symm hne, Ne.symm hnu]

theorem countEarn_eq_zero_of_not_hasEarn {l : List LedgerEntry}
    {uid rid : String} (h : hasEarn l uid rid = false) :
    countEarn l uid rid = 0 := by
  unfold hasEarn at h
  unfold countEarn
  rw [List.length_eq_zero, List.filter_eq_nil_iff]
  exact List.any_eq_false.mp h

theorem countEarn_addEarn_not_mem (rewardAmt : String → Nat) (uid : String)
    (t : List String) (rid : String) (s : WalletState) (hnm : rid ∉ t)
    (hnu : uid ≠ rewardsAccount) :
    countEarn (addEarn rewardAmt uid t s).ledger uid rid =
      countEarn s.ledger uid rid := by
  induction t generalizing s with
  | nil => rfl
  | cons r' t' ih =>
    have hne : rid ≠ r' := fun heq => hnm (heq ▸ List.mem_cons_self r' t')
    have hnm' : rid ∉ t' := fun hm => hnm (List.mem_cons_of_mem r' hm)
    rw [addEarn_cons, ih _ hnm']
    rw [addEarnOne_eq]
    split
    · rfl
    · rw [show ({ s with
            ledger := earnEntries uid r' (rewardAmt r') ++ s.ledger } :
          WalletState).ledger = earnEntries uid r' (rewardAmt r') ++ s.ledger
        from rfl]
      rw [countEarn_append, countEarn_earn_ne uid r' rid _ hne hnu,
        Nat.zero_add]

theorem countEarn_addEarn_eq_one (rewardAmt : String → Nat) (uid : String)
    (rids : List String) (s : WalletState) (hnd : rids.Nodup)
    (hfresh : ∀ rid ∈ rids, hasEarn s.ledger uid rid = false)
    (hnu : uid ≠ rewardsAccount) :
    ∀ rid ∈ rids,
      countEarn (addEarn rewardAmt uid rids s).ledger uid rid = 1 := by
  induction rids generalizing s with
  | nil => intro rid hm; cases hm
  | cons r t ih =>
    intro rid hm
    obtain ⟨hrt, hndt⟩ := List.nodup_cons.mp hnd
    rw [addEarn_cons, addEarnOne_eq,
      if_neg (by simp [hfresh r (List.mem_cons_self r t)])]
    have hfresh' : ∀ rid' ∈ t,
        hasEarn (earnEntries uid r (rewardAmt r) ++ s.ledger) uid rid'
          = false := by
      intro rid' hm'
      have hne : rid' ≠ r := fun heq => hrt (heq ▸ hm')
      rw [hasEarn_append_earn uid r rid' _ _ hne hnu]
      exact hfresh rid' (List.mem_cons_of_mem r hm')
    rcases List.mem_cons.mp hm with rfl | hmt
    · rw [countEarn_addEarn_not_mem rewardAmt uid t rid _ hrt hnu]
      rw [show ({ s with
            ledger := earnEntries uid rid (rewardAmt rid) ++ s.ledger } :
          WalletState).ledger = earnEntries uid rid (rewardAmt rid) ++ s.ledger
        from rfl]
      rw [countEarn_append, countEarn_earn_self uid rid _ hnu,
        countEarn_eq_zero_of_not_hasEarn
          (hfresh rid (List.mem_cons_self rid t))]
    · exact ih _ hndt hfresh' rid hmt

/-! ### Evaluation equations for the Payment Router -/

theorem pay_onUs_eq (payer : String) (inv : DecodedInvoice)
    (explicitAmount : Option Nat) (nodeOutcome : NodeOutcome) (maxFee : Nat)
    (s : WalletState) (a : Nat) (payee : String)
    (hres : resolveAmount inv.amount explicitAmount = Except.ok a)
    (hlook : lookupInvoice s inv.hash = some payee)
    (hdiff : payee ≠ payer)
    (hbal : ¬ balanceOf s payer < (a : Int)) :
    pay payer inv explicitAmount nodeOutcome maxFee s =
      ⟨Except.ok (PayOutcome.success 0),
       { s with
         ledger := onUsEntries payer payee inv.hash a inv.memo ++ s.ledger },
       false⟩ := by
  unfold pay
  rw [hres, hlook]
  simp only []
  rw [if_neg hdiff, if_neg hbal,
    appendBalanced_of_zero (amountSum_onUs payer payee inv.hash a inv.memo)]

theorem pay_external_success_eq (payer : String) (inv : DecodedInvoice)
    (explicitAmount : Option Nat) (feeAmt maxFee : Nat) (s : WalletState)
    (a : Nat)
    (hres : resolveAmount inv.amount explicitAmount = Except.ok a)
    (hlook : lookupInvoice s inv.hash = none)
    (hbal : ¬ balanceOf s payer < (a : Int) + (maxFee : Int)) :
    pay payer inv explicitAmount (NodeOutcome.success feeAmt) maxFee s =
      ⟨Except.ok (PayOutcome.success feeAmt),
       { s with
         ledger := externalSendEntries payer inv.hash a feeAmt inv.memo ++
           s.ledger },
       true⟩ := by
  unfold pay
  rw [hres, hlook]
  simp only []
  rw [if_neg hbal,
    appendBalanced_of_zero
      (amountSum_externalSend payer inv.hash a feeAmt inv.memo)]

theorem pay_external_pending_eq (payer : String) (inv : DecodedInvoice)
    (explicitAmount : Option Nat) (maxFee : Nat) (s : WalletState) (a : Nat)
    (hres : resolveAmount inv.amount explicitAmount = Except.ok a)
    (hlook : lookupInvoice s inv.hash = none)
    (hbal : ¬ balanceOf s payer < (a : Int) + (maxFee : Int)) :
    pay payer inv explicitAmount NodeOutcome.pending maxFee s =
      ⟨Except.ok PayOutcome.pending,
       { s with
         ledger := pendingEntries payer inv.hash a inv.memo ++ s.ledger },
       true⟩ := by
  unfold pay
  rw [hres, hlook]
  simp only []
  rw [if_neg hbal,
    appendBalanced_of_zero (amountSum_pendingEntries payer inv.hash a inv.memo)]

/-! ### Per-account sums of the entry sets -/

theorem ledgerBalance_onUs_payer (payer payee h : String) (a : Nat)
    (memo : Option String) (hdiff : payee ≠ payer) :
    ledgerBalance (onUsEntries payer payee h a memo) payer = -(a : Int) := by
  simp [onUsEntries, ledgerBalance_cons, hdiff, ledgerBalance, amountSum]

theorem ledgerBalance_onUs_payee (payer payee h : String) (a : Nat)
    (memo : Option String) (hdiff : payee ≠ payer) :
    ledgerBalance (onUsEntries payer payee h a memo) payee = (a : Int) := by
  simp [onUsEntries, ledgerBalance_cons, Ne.symm hdiff, ledgerBalance,
    amountSum]

theorem ledgerBalance_externalSend_payer (payer h : String) (a feeAmt : Nat)
    (memo : Option String) (hL : payer ≠ lightningAccount)
    (hF : payer ≠ feeRevenueAccount) :
    ledgerBalance (externalSendEntries payer h a feeAmt memo) payer =
      -((a : Int) + (feeAmt : Int)) := by
  simp [externalSendEntries, ledgerBalance_cons, Ne.symm hL, Ne.symm hF,
    ledgerBalance, amountSum]

theorem ledgerBalance_pendingEntries_payer (payer h : String) (a : Nat)
    (memo : Option String) (hL : payer ≠ lightningAccount) :
    ledgerBalance (pendingEntries payer h a memo) payer = -(a : Int) := by
  simp [pendingEntries, ledgerBalance_cons, Ne.symm hL, ledgerBalance,
    amountSum]

/-! ### Transaction-history projections -/

theorem getTransactions_filter_head (s : WalletState) (e : LedgerEntry)
    (rest : List LedgerEntry) (u h : String) (hledger : s.ledger = e :: rest)
    (hacc : e.accountPath = u) (hh : e.hash = h) :
    ((getTransactions s u).filter (fun t => t.hash = h)).head?.map
      (fun t => t.description) = some (describe e) := by
  unfold getTransactions entriesFor
  rw [hledger, List.filter_cons_of_pos (by simp [hacc]), List.map_cons,
    List.filter_cons_of_pos (by simp [hh])]
  rfl

theorem getTransactions_filter_head2 (s : WalletState) (e1 e2 : LedgerEntry)
    (rest : List LedgerEntry) (u h : String)
    (hledger : s.ledger = e1 :: e2 :: rest)
    (hacc1 : e1.accountPath ≠ u) (hacc2 : e2.accountPath = u)
    (hh : e2.hash = h) :
    ((getTransactions s u).filter (fun t => t.hash = h)).head?.map
      (fun t => t.description) = some (describe e2) := by
  unfold getTransactions entriesFor
  rw [hledger, List.filter_cons_of_neg (by simp [hacc1]),
    List.filter_cons_of_pos (by simp [hacc2]), List.map_cons,
    List.filter_cons_of_pos (by simp [hh])]
  rfl

theorem balanceOf_settlePending (s : WalletState) (h u : String) :
    balanceOf (settlePending s h) u = balanceOf s u :=
  ledgerBalance_map _ (settleMark_amount h) (settleMark_accountPath h)
    s.ledger u

theorem ledgerBalance_map_compensate (L : List LedgerEntry) (u : String) :
    ledgerBalance (L.map compensate) u = -(ledgerBalance L u) := by
  induction L with
  | nil => rfl
  | cons e t ih =>
    rw [List.map_cons, ledgerBalance_cons, ledgerBalance_cons, ih]
    by_cases hc : e.accountPath = u
    · simp only [compensate, hc, if_pos]
      ring
    · simp only [compensate, hc, if_neg, not_false_iff]
      ring

/-! ### Claims -/

/-- Claim C1: for every on-us payment in which user A pays an invoice
issued by a different registered user B for amount v (with A's balance
at least v), the operation returns Success with zero fee and no network
call, A's balance decreases by exactly v, B's balance increases by
exactly v, and afterwards A's transaction history shows the entry for
that invoice hash with description "Payment sent" while B's shows
"Payment received". -/
theorem C1_onus_payment (payer : String) (inv : DecodedInvoice)
    (explicitAmount : Option Nat) (nodeOutcome : NodeOutcome) (maxFee : Nat)
    (s : WalletState) (v : Nat) (payee : String)
    (hres : resolveAmount inv.amount explicitAmount = Except.ok v)
    (hlook : lookupInvoice s inv.hash = some payee)
    (hdiff : payee ≠ payer)
    (hbal : (v : Int) ≤ balanceOf s payer) :
    (pay payer inv explicitAmount nodeOutcome maxFee s).result =
      Except.ok (PayOutcome.success 0) ∧
    (pay payer inv explicitAmount nodeOutcome maxFee s).networkCalled =
      false ∧
    balanceOf (pay payer inv explicitAmount nodeOutcome maxFee s).state
        payer = balanceOf s payer - (v : Int) ∧
    balanceOf (pay payer inv explicitAmount nodeOutcome maxFee s).state
        payee = balanceOf s payee + (v : Int) ∧
    ((getTransactions
        (pay payer inv explicitAmount nodeOutcome maxFee s).state
        payer).filter (fun t => t.hash = inv.hash)).head?.map
      (fun t => t.description) = some "Payment sent" ∧
    ((getTransactions
        (pay payer inv explicitAmount nodeOutcome maxFee s).state
        payee).filter (fun t => t.hash = inv.hash)).head?.map
      (fun t => t.description) = some "Payment received" := by
  have hpay := pay_onUs_eq payer inv explicitAmount nodeOutcome maxFee s v
    payee hres hlook hdiff (not_lt.mpr hbal)
  rw [hpay]
  refine ⟨rfl, rfl, ?_, ?_, ?_, ?_⟩
  · show ledgerBalance
        (onUsEntries payer payee inv.hash v inv.memo ++ s.ledger) payer =
      ledgerBalance s.ledger payer - (v : Int)
    rw [ledgerBalance_append,
      ledgerBalance_onUs_payer payer payee inv.hash v inv.memo hdiff]
    ring
  · show ledgerBalance
        (onUsEntries payer payee inv.hash v inv.memo ++ s.ledger) payee =
      ledgerBalance s.ledger payee + (v : Int)
    rw [ledgerBalance_append,
      ledgerBalance_onUs_payee payer payee inv.hash v inv.memo hdiff]
    ring
  · exact getTransactions_filter_head
      { s with
        ledger := onUsEntries payer payee inv.hash v inv.memo ++ s.ledger }
      { accountPath := payer, amount := -(v : Int), hash := inv.hash,
        txType := TxType.on_us_send, memo := inv.memo,
        substate := SubState.base }
      ({ accountPath := payee, amount := (v : Int), hash := inv.hash,
          txType := TxType.on_us_receive, memo := inv.memo,
          substate := SubState.base } :: s.ledger)
      payer inv.hash rfl rfl rfl
  · exact getTransactions_filter_head2
      { s with
        ledger := onUsEntries payer payee inv.hash v inv.memo ++ s.ledger }
      { accountPath := payer, amount := -(v : Int), hash := inv.hash,
        txType := TxType.on_us_send, memo := inv.memo,
        substate := SubState.base }
      { accountPath := payee, amount := (v : Int), hash := inv.hash,
        txType := TxType.on_us_receive, memo := inv.memo,
        substate := SubState.base }
      s.ledger payee inv.hash rfl (Ne.symm hdiff) rfl rfl

def c1State : WalletState :=
  { ledger := [ { accountPath := "user1", amount := 10000,
                  hash := "fund1", txType := TxType.external_receive,
                  memo := none, substate := SubState.base } ],
    invoiceDir := [("inv1", "user2")] }

/-- Witness for C1 at a concrete on-us payment: user1 (balance 10000)
pays user2's 1000-unit invoice. -/
theorem C1_onus_payment_witness :
    (pay "user1" ⟨"inv1", "dest", some 1000, none⟩ none NodeOutcome.pending
      10 c1State).result = Except.ok (PayOutcome.success 0) ∧
    balanceOf (pay "user1" ⟨"inv1", "dest", some 1000, none⟩ none
      NodeOutcome.pending 10 c1State).state "user1" = 9000 ∧
    balanceOf (pay "user1" ⟨"inv1", "dest", some 1000, none⟩ none
      NodeOutcome.pending 10 c1State).state "user2" = 1000 ∧
    ((getTransactions (pay "user1" ⟨"inv1", "dest", some 1000, none⟩ none
        NodeOutcome.pending 10 c1State).state "user1").filter
      (fun t => t.hash = "inv1")).head?.map (fun t => t.description) =
      some "Payment sent" ∧
    ((getTransactions (pay "user1" ⟨"inv1", "dest", some 1000, none⟩ none
        NodeOutcome.pending 10 c1State).state "user2").filter
      (fun t => t.hash = "inv1")).head?.map (fun t => t.description) =
      some "Payment received" := by
  have h := C1_onus_payment "user1" ⟨"inv1", "dest", some 1000, none⟩ none
    NodeOutcome.pending 10 c1State 1000 "user2" rfl (by decide) (by decide)
    (by decide)
  refine ⟨h.1, ?_, ?_, h.2.2.2.2.1, h.2.2.2.2.2⟩
  · rw [h.2.2.1]
    decide
  · rw [h.2.2.2.1]
    decide

/-- Claim C3: for every external payment that the node settles
immediately with reported exact fee f, `pay` returns Success and the
payer's balance decreases by exactly amount + f, the debit being
recorded as a balanced entry set tagged `external_send` correlated by
the network payment hash. -/
theorem C3_external_send_success (payer : String) (inv : DecodedInvoice)
    (explicitAmount : Option Nat) (feeAmt maxFee : Nat) (s : WalletState)
    (a : Nat)
    (hres : resolveAmount inv.amount explicitAmount = Except.ok a)
    (hlook : lookupInvoice s inv.hash = none)
    (hbal : (a : Int) + (maxFee : Int) ≤ balanceOf s payer)
    (hL : payer ≠ lightningAccount) (hF : payer ≠ feeRevenueAccount) :
    (pay payer inv explicitAmount (NodeOutcome.success feeAmt) maxFee
      s).result = Except.ok (PayOutcome.success feeAmt) ∧
    balanceOf (pay payer inv explicitAmount (NodeOutcome.success feeAmt)
      maxFee s).state payer =
        balanceOf s payer - ((a : Int) + (feeAmt : Int)) ∧
    (pay payer inv explicitAmount (NodeOutcome.success feeAmt) maxFee
      s).state.ledger =
        externalSendEntries payer inv.hash a feeAmt inv.memo ++ s.ledger ∧
    amountSum (externalSendEntries payer inv.hash a feeAmt inv.memo) = 0 ∧
    ((externalSendEntries payer inv.hash a feeAmt inv.memo).all
      (fun e => e.hash = inv.hash)) = true ∧
    ((externalSendEntries payer inv.hash a feeAmt inv.memo).head?.map
      (fun e => e.txType)) = some TxType.external_send := by
  have hpay := pay_external_success_eq payer inv explicitAmount feeAmt
    maxFee s a hres hlook (not_lt.mpr hbal)
  rw [hpay]
  refine ⟨rfl, ?_, rfl, amountSum_externalSend payer inv.hash a feeAmt
    inv.memo, ?_, rfl⟩
  · show ledgerBalance
        (externalSendEntries payer inv.hash a feeAmt inv.memo ++ s.ledger)
        payer = ledgerBalance s.ledger payer - ((a : Int) + (feeAmt : Int))
    rw [ledgerBalance_append,
      ledgerBalance_externalSend_payer payer inv.hash a feeAmt inv.memo
        hL hF]
    ring
  · rw [List.all_eq_true]
    intro e he
    simpa using externalSend_all_hash payer inv.hash a feeAmt inv.memo e he

def c3State : WalletState :=
  { ledger := [ { accountPath := "user1", amount := 10000,
                  hash := "fund1", txType := TxType.external_receive,
                  memo := none, substate := SubState.base } ],
    invoiceDir := [] }

/-- Witness for C3 at a concrete external payment of 1000 with reported
fee 3. -/
theorem C3_external_send_success_witness :
    (pay "user1" ⟨"net1", "dest", some 1000, none⟩ none
      (NodeOutcome.success 3) 10 c3State).result =
      Except.ok (PayOutcome.success 3) ∧
    balanceOf (pay "user1" ⟨"net1", "dest", some 1000, none⟩ none
      (NodeOutcome.success 3) 10 c3State).state "user1" = 8997 ∧
    amountSum (externalSendEntries "user1" "net1" 1000 3 none) = 0 ∧
    ((externalSendEntries "user1" "net1" 1000 3 none).all
      (fun e => e.hash = "net1")) = true := by
  have h := C3_external_send_success "user1" ⟨"net1", "dest", some 1000,
    none⟩ none 3 10 c3State 1000 rfl (by decide) (by decide) (by decide)
    (by decide)
  refine ⟨h.1, ?_, h.2.2.2.1, h.2.2.2.2.1⟩
  rw [h.2.1]
  decide

/-- Claim C4: for every external payment the node accepts as deferred
(hodl-style), `pay` returns Pending and the payer's balance already
reflects the full provisional debit; a later settlement event changes
the balance by nothing further, and a later expiry/cancel event
restores exactly the pre-payment balance via equal-and-opposite
compensating entries. -/
theorem C4_pending_payment (payer : String) (inv : DecodedInvoice)
    (explicitAmount : Option Nat) (maxFee : Nat) (s : WalletState) (a : Nat)
    (hres : resolveAmount inv.amount explicitAmount = Except.ok a)
    (hlook : lookupInvoice s inv.hash = none)
    (hbal : (a : Int) + (maxFee : Int) ≤ balanceOf s payer)
    (hnp : s.ledger.filter
      (fun e => e.hash = inv.hash ∧ e.substate = SubState.pending) = [])
    (hL : payer ≠ lightningAccount) :
    (pay payer inv explicitAmount NodeOutcome.pending maxFee s).result =
      Except.ok PayOutcome.pending ∧
    balanceOf (pay payer inv explicitAmount NodeOutcome.pending maxFee
      s).state payer = balanceOf s payer - (a : Int) ∧
    balanceOf (settlePending
      (pay payer inv explicitAmount NodeOutcome.pending maxFee s).state
      inv.hash) payer =
      balanceOf (pay payer inv explicitAmount NodeOutcome.pending maxFee
        s).state payer ∧
    balanceOf (cancelPending
      (pay payer inv explicitAmount NodeOutcome.pending maxFee s).state
      inv.hash) payer = balanceOf s payer := by
  have hpay := pay_external_pending_eq payer inv explicitAmount maxFee s a
    hres hlook (not_lt.mpr hbal)
  rw [hpay]
  have hfe : (pendingEntries payer inv.hash a inv.memo ++ s.ledger).filter
      (fun e => e.hash = inv.hash ∧ e.substate = SubState.pending) =
      pendingEntries payer inv.hash a inv.memo := by
    rw [List.filter_append, hnp, List.append_nil, List.filter_eq_self.mpr]
    intro e he
    simpa using pendingEntries_all payer inv.hash a inv.memo e he
  refine ⟨rfl, ?_, balanceOf_settlePending _ inv.hash payer, ?_⟩
  · show ledgerBalance
        (pendingEntries payer inv.hash a inv.memo ++ s.ledger) payer =
      ledgerBalance s.ledger payer - (a : Int)
    rw [ledgerBalance_append,
      ledgerBalance_pendingEntries_payer payer inv.hash a inv.memo hL]
    ring
  · show ledgerBalance
        (((pendingEntries payer inv.hash a inv.memo ++ s.ledger).filter
            (fun e => e.hash = inv.hash ∧
              e.substate = SubState.pending)).map compensate ++
          (pendingEntries payer inv.hash a inv.memo ++ s.ledger).map
            (reverseMark inv.hash)) payer = ledgerBalance s.ledger payer
    rw [hfe, ledgerBalance_append, ledgerBalance_map_compensate,
      ledgerBalance_map _ (reverseMark_amount inv.hash)
        (reverseMark_accountPath inv.hash), ledgerBalance_append,
      ledgerBalance_pendingEntries_payer payer inv.hash a inv.memo hL]
    ring

def c4State : WalletState :=
  { ledger := [ { accountPath := "user1", amount := 10000,
                  hash := "fund1", txType := TxType.external_receive,
                  memo := none, substate := SubState.base } ],
    invoiceDir := [] }

/-- Witness for C4 at a concrete hodl payment of 1000: pending debit,
settlement neutrality, cancellation restoring the balance of 10000. -/
theorem C4_pending_payment_witness :
    (pay "user1" ⟨"hodl1", "dest", some 1000, none⟩ none
      NodeOutcome.pending 10 c4State).result =
      Except.ok PayOutcome.pending ∧
    balanceOf (pay "user1" ⟨"hodl1", "dest", some 1000, none⟩ none
      NodeOutcome.pending 10 c4State).state "user1" = 9000 ∧
    balanceOf (settlePending (pay "user1" ⟨"hodl1", "dest", some 1000,
      none⟩ none NodeOutcome.pending 10 c4State).state "hodl1") "user1" =
      9000 ∧
    balanceOf (cancelPending (pay "user1" ⟨"hodl1", "dest", some 1000,
      none⟩ none NodeOutcome.pending 10 c4State).state "hodl1") "user1" =
      10000 := by
  have h := C4_pending_payment "user1" ⟨"hodl1", "dest", some 1000, none⟩
    none 10 c4State 1000 rfl (by decide) (by decide) (by decide) (by decide)
  refine ⟨h.1, ?_, ?_, ?_⟩
  · rw [h.2.1]
    decide
  · rw [h.2.2.1, h.2.1]
    decide
  · rw [h.2.2.2]
    decide

/-- Claim C5: for every pay request whose resolved amount (plus, for
external payments, the conservative maximum-fee headroom) exceeds the
payer's current balance, the operation fails with
InsufficientBalanceError before any interaction with the external node,
and no LedgerEntry is written, so the payer's balance is unchanged. -/
theorem C5_insufficient_balance (payer : String) (inv : DecodedInvoice)
    (explicitAmount : Option Nat) (nodeOutcome : NodeOutcome) (maxFee : Nat)
    (s : WalletState) (a : Nat)
    (hres : resolveAmount inv.amount explicitAmount = Except.ok a)
    (hns : lookupInvoice s inv.hash ≠ some payer)
    (hbal : balanceOf s payer < (a : Int) +
      (match lookupInvoice s inv.hash with
       | none => (maxFee : Int)
       | some _ => 0)) :
    pay payer inv explicitAmount nodeOutcome maxFee s =
      ⟨Except.error WalletError.InsufficientBalanceError, s, false⟩ := by
  unfold pay
  rw [hres]
  simp only []
  cases hcase : lookupInvoice s inv.hash with
  | some payee =>
    rw [hcase] at hbal hns
    simp only [] at hbal
    rw [add_zero] at hbal
    have hne : payee ≠ payer := fun heq => hns (by rw [heq])
    simp only []
    rw [if_neg hne, if_pos hbal]
  | none =>
    rw [hcase] at hbal
    simp only [] at hbal
    simp only []
    rw [if_pos hbal]

def c5State : WalletState :=
  { ledger := [ { accountPath := "user1", amount := 100,
                  hash := "fund1", txType := TxType.external_receive,
                  memo := none, substate := SubState.base } ],
    invoiceDir := [] }

/-- Witness for C5: a 1000000-unit external payment against a balance of
100 is rejected with no state change and no network call. -/
theorem C5_insufficient_balance_witness :
    pay "user1" ⟨"big1", "dest", some 1000000, none⟩ none
        (NodeOutcome.success 0) 10 c5State =
      ⟨Except.error WalletError.InsufficientBalanceError, c5State,
       false⟩ :=
  C5_insufficient_balance "user1" ⟨"big1", "dest", some 1000000, none⟩
    none (NodeOutcome.success 0) 10 c5State 1000000 rfl (by decide)
    (by decide)

def c6State : WalletState :=
  { ledger := [ { accountPath := "user1", amount := 10000,
                  hash := "fund1", txType := TxType.external_receive,
                  memo := none, substate := SubState.base } ],
    invoiceDir := [("inv6", "user2")] }

/-- Counterexample to claim C6 as stated: user1 (balance 10000) pays
user2's fixed-amount invoice (1000) while supplying the SAME explicit
amount 1000 — the two amounts match exactly, yet the payment fails with
AmountMismatchError and does not proceed (the repository's test `fails
to pay regular invoice with separate amt` pins exactly this rejection
of an equal explicit amount). -/
theorem C6_counterexample :
    (pay "user1" ⟨"inv6", "dest", some 1000, none⟩ (some 1000)
        (NodeOutcome.success 0) 10 c6State).result =
      Except.error WalletError.AmountMismatchError ∧
    (pay "user1" ⟨"inv6", "dest", some 1000, none⟩ (some 1000)
        (NodeOutcome.success 0) 10 c6State).state = c6State ∧
    (pay "user1" ⟨"inv6", "dest", some 1000, none⟩ (some 1000)
        (NodeOutcome.success 0) 10 c6State).networkCalled = false :=
  ⟨rfl, rfl, rfl⟩

/-- Claim C6 (amended): for every payment of a fixed-amount invoice
where an explicit amount is also supplied, the payment fails with
AmountMismatchError (balance unchanged, no network call) regardless of
whether the explicit amount equals the invoice's embedded amount;
amount resolution succeeds for a fixed-amount invoice exactly when no
explicit amount is supplied, in which case the invoice amount is
used. -/
theorem C6_fixed_amount_with_explicit (payer : String)
    (inv : DecodedInvoice) (b : Nat) (nodeOutcome : NodeOutcome)
    (maxFee : Nat) (s : WalletState) (a : Nat)
    (hinv : inv.amount = some a) :
    pay payer inv (some b) nodeOutcome maxFee s =
      ⟨Except.error WalletError.AmountMismatchError, s, false⟩ ∧
    resolveAmount inv.amount none = Except.ok a := by
  constructor
  · unfold pay
    rw [hinv]
    rfl
  · rw [hinv]
    rfl

/-- Witness for the amended C6 at concrete inputs (explicit amount equal
to the invoice amount). -/
theorem C6_fixed_amount_with_explicit_witness :
    pay "user1" ⟨"inv6", "dest", some 1000, none⟩ (some 1000)
        (NodeOutcome.success 0) 10 c6State =
      ⟨Except.error WalletError.AmountMismatchError, c6State, false⟩ ∧
    resolveAmount (some 1000) none = Except.ok 1000 :=
  ⟨(C6_fixed_amount_with_explicit "user1" ⟨"inv6", "dest", some 1000,
      none⟩ 1000 (NodeOutcome.success 0) 10 c6State 1000 rfl).1,
   (C6_fixed_amount_with_explicit "user1" ⟨"inv6", "dest", some 1000,
      none⟩ 1000 (NodeOutcome.success 0) 10 c6State 1000 rfl).2⟩

/-- Claim C7: paying an invoice that carries no embedded amount without
supplying an explicit amount fails with AmountRequiredError before any
network call and leaves the payer's balance unchanged; supplying an
explicit amount for such an any-amount invoice makes the payment
proceed, and (at the zero network fee of the pinned test) the balance
decreases by exactly that explicit amount. -/
theorem C7_any_amount_invoice (payer : String) (inv : DecodedInvoice)
    (nodeOutcome : NodeOutcome) (maxFee : Nat) (s : WalletState) (b : Nat)
    (hnone : inv.amount = none)
    (hlook : lookupInvoice s inv.hash = none)
    (hbal : (b : Int) + (maxFee : Int) ≤ balanceOf s payer)
    (hL : payer ≠ lightningAccount) (hF : payer ≠ feeRevenueAccount) :
    pay payer inv none nodeOutcome maxFee s =
      ⟨Except.error WalletError.AmountRequiredError, s, false⟩ ∧
    (pay payer inv (some b) (NodeOutcome.success 0) maxFee s).result =
      Except.ok (PayOutcome.success 0) ∧
    balanceOf (pay payer inv (some b) (NodeOutcome.success 0) maxFee
      s).state payer = balanceOf s payer - (b : Int) := by
  have hres : resolveAmount inv.amount (some b) = Except.ok b := by
    rw [hnone]
    rfl
  have hpay := pay_external_success_eq payer inv (some b) 0 maxFee s b
    hres hlook (not_lt.mpr hbal)
  refine ⟨?_, ?_, ?_⟩
  · unfold pay
    rw [hnone]
    rfl
  · rw [hpay]
  · rw [hpay]
    show ledgerBalance
        (externalSendEntries payer inv.hash b 0 inv.memo ++ s.ledger)
        payer = ledgerBalance s.ledger payer - (b : Int)
    rw [ledgerBalance_append,
      ledgerBalance_externalSend_payer payer inv.hash b 0 inv.memo hL hF]
    push_cast
    ring

def c7State : WalletState :=
  { ledger := [ { accountPath := "user1", amount := 10000,
                  hash := "fund1", txType := TxType.external_receive,
                  memo := none, substate := SubState.base } ],
    invoiceDir := [] }

/-- Witness for C7: the any-amount invoice is rejected without an
explicit amount and paid for exactly 1000 with one. -/
theorem C7_any_amount_invoice_witness :
    pay "user1" ⟨"zero1", "dest", none, none⟩ none
        (NodeOutcome.success 0) 10 c7State =
      ⟨Except.error WalletError.AmountRequiredError, c7State, false⟩ ∧
    (pay "user1" ⟨"zero1", "dest", none, none⟩ (some 1000)
      (NodeOutcome.success 0) 10 c7State).result =
      Except.ok (PayOutcome.success 0) ∧
    balanceOf (pay "user1" ⟨"zero1", "dest", none, none⟩ (some 1000)
      (NodeOutcome.success 0) 10 c7State).state "user1" = 9000 := by
  have h := C7_any_amount_invoice "user1" ⟨"zero1", "dest", none, none⟩
    (NodeOutcome.success 0) 10 c7State 1000 rfl (by decide) (by decide)
    (by decide) (by decide)
  refine ⟨h.1, h.2.1, ?_⟩
  rw [h.2.2]
  decide

/-- Claim C8: for every pay request whose invoice content hash resolves
in the Invoice Directory to the paying user's own id, the payment fails
with SelfPaymentError, the state (hence the balance) is unchanged and
no network call is made. -/
theorem C8_self_payment (payer : String) (inv : DecodedInvoice)
    (explicitAmount : Option Nat) (nodeOutcome : NodeOutcome)
    (maxFee : Nat) (s : WalletState) (a : Nat)
    (hres : resolveAmount inv.amount explicitAmount = Except.ok a)
    (hlook : lookupInvoice s inv.hash = some payer) :
    pay payer inv explicitAmount nodeOutcome maxFee s =
      ⟨Except.error WalletError.SelfPaymentError, s, false⟩ := by
  unfold pay
  rw [hres, hlook]
  simp only []
  rw [if_pos trivial]

def c8State : WalletState :=
  { ledger := [ { accountPath := "user1", amount := 10000,
                  hash := "fund1", txType := TxType.external_receive,
                  memo := none, substate := SubState.base } ],
    invoiceDir := [("inv8", "user1")] }

/-- Witness for C8: user1 paying user1's own invoice is rejected with no
state change. -/
theorem C8_self_payment_witness :
    pay "user1" ⟨"inv8", "dest", some 1000, none⟩ none
        (NodeOutcome.success 0) 10 c8State =
      ⟨Except.error WalletError.SelfPaymentError, c8State, false⟩ :=
  C8_self_payment "user1" ⟨"inv8", "dest", some 1000, none⟩ none
    (NodeOutcome.success 0) 10 c8State 1000 rfl (by decide)

/-- Claim C2: after any sequence of completed operations (invoice
registration, pay with any arguments and node outcome, reward issuance,
inbound settlement, and the pending settlement/expiry events) starting
from the empty state, the sum of all LedgerEntry amounts over all
accounts equals zero (I5), and for every correlation hash the sum of
the LedgerEntry amounts sharing that hash is exactly zero (I1). -/
theorem C2_ledger_invariants {s : WalletState} (hr : Reachable s) :
    amountSum s.ledger = 0 ∧ ∀ h, hashSum h s.ledger = 0 := by
  obtain ⟨g1, g2, _⟩ := reachable_ledgerInv hr
  exact ⟨g1, g2⟩

def c2Demo : WalletState :=
  (pay "user1" ⟨"net2", "dest", some 40, none⟩ none (NodeOutcome.success 3)
    10 (addEarn (fun _ => 100) "user1" ["r1", "r2"] ⟨[], []⟩)).state

/-- Witness for C2 on a concrete operation sequence: two rewards then an
external payment with fee. -/
theorem C2_ledger_invariants_witness :
    amountSum c2Demo.ledger = 0 ∧ hashSum "net2" c2Demo.ledger = 0 := by
  have hr : Reachable c2Demo :=
    Reachable.payStep "user1" ⟨"net2", "dest", some 40, none⟩ none
      (NodeOutcome.success 3) 10
      (Reachable.earnStep (fun _ => 100) "user1" ["r1", "r2"]
        Reachable.init)
  exact ⟨(C2_ledger_invariants hr).1, (C2_ledger_invariants hr).2 "net2"⟩

/-- Claim C9: reward issuance is idempotent — calling the Reward Issuer
a second time with the same ordered set of reward ids leaves the whole
state (balance and ledger) unchanged; starting from a user with no
prior rewards and zero balance, the balance after the first call equals
the sum of the fixed reward amounts, and exactly one onboarding_earn
entry exists per (user, reward-id) pair afterwards (I3). -/
theorem C9_reward_idempotent (rewardAmt : String → Nat) (uid : String)
    (rids : List String) (s : WalletState) (hnd : rids.Nodup)
    (hfresh : ∀ rid ∈ rids, hasEarn s.ledger uid rid = false)
    (hzero : balanceOf s uid = 0) (hnu : uid ≠ rewardsAccount) :
    addEarn rewardAmt uid rids (addEarn rewardAmt uid rids s) =
      addEarn rewardAmt uid rids s ∧
    balanceOf (addEarn rewardAmt uid rids s) uid =
      (rids.map (fun r => (rewardAmt r : Int))).sum ∧
    ∀ rid ∈ rids,
      countEarn (addEarn rewardAmt uid rids s).ledger uid rid = 1 := by
  refine ⟨addEarn_idempotent rewardAmt uid rids s, ?_,
    countEarn_addEarn_eq_one rewardAmt uid rids s hnd hfresh hnu⟩
  show ledgerBalance (addEarn rewardAmt uid rids s).ledger uid =
    (rids.map (fun r => (rewardAmt r : Int))).sum
  rw [balance_addEarn rewardAmt uid rids s hnd hfresh hnu,
    show ledgerBalance s.ledger uid = balanceOf s uid from rfl, hzero,
    zero_add]

/-- Witness for C9 with two 1000-unit rewards issued twice to a fresh
user. -/
theorem C9_reward_idempotent_witness :
    addEarn (fun _ => 1000) "user1" ["r1", "r2"]
        (addEarn (fun _ => 1000) "user1" ["r1", "r2"] ⟨[], []⟩) =
      addEarn (fun _ => 1000) "user1" ["r1", "r2"] ⟨[], []⟩ ∧
    balanceOf (addEarn (fun _ => 1000) "user1" ["r1", "r2"] ⟨[], []⟩)
      "user1" = 2000 ∧
    countEarn (addEarn (fun _ => 1000) "user1" ["r1", "r2"]
      ⟨[], []⟩).ledger "user1" "r1" = 1 := by
  have h := C9_reward_idempotent (fun _ => 1000) "user1" ["r1", "r2"]
    ⟨[], []⟩ (by decide) (by decide) rfl (by decide)
  refine ⟨h.1, ?_, h.2.2 "r1" (by decide)⟩
  rw [h.2.1]
  decide

/-- Claim C10: if the push-messaging backend is not configured (no
Firebase credentials loaded), sendNotification called with at least one
device token of length exactly 163 returns true — the same value as a
successful delivery — without sending anything and without surfacing an
error; whereas if no supplied token has length exactly 163,
sendNotification returns InvalidDeviceNotificationsServiceError without
attempting delivery, whatever the messaging configuration. -/
theorem C10_push_unconfigured (deviceTokens : List String)
    (title body : String) (data : List (String × String)) :
    ((deviceTokens.any (fun token => token.length = 163)) = true →
      sendNotification none deviceTokens title body data =
        ⟨SendResult.ok, false⟩) ∧
    ((deviceTokens.all (fun token => ¬(token.length = 163))) = true →
      ∀ messaging, sendNotification messaging deviceTokens title body
        data =
        ⟨SendResult.err NotificationsServiceErr.InvalidDevice, false⟩) := by
  constructor
  · intro hany
    obtain ⟨t, ht, hp⟩ := List.any_eq_true.mp hany
    have htl : t ∈ deviceTokens.filter (fun token => token.length = 163) :=
      List.mem_filter.mpr ⟨ht, hp⟩
    have hpos : 0 < (deviceTokens.filter
        (fun token => token.length = 163)).length :=
      List.length_pos.mpr (List.ne_nil_of_mem htl)
    unfold sendNotification
    simp only []
    rw [if_neg (by omega : ¬ (deviceTokens.filter
      (fun token => token.length = 163)).length ≤ 0)]
    rfl
  · intro hall messaging
    have hnil : deviceTokens.filter (fun token => token.length = 163)
        = [] := by
      rw [List.filter_eq_nil_iff]
      intro t ht
      simpa using List.all_eq_true.mp hall t ht
    unfold sendNotification
    simp only []
    rw [hnil]
    rfl

def tok163 : String := String.mk (List.replicate 163 'x')

set_option maxRecDepth 8192 in
/-- Witness for C10: one valid-length token with no messaging module
yields true; a short token yields the invalid-device error. -/
theorem C10_push_unconfigured_witness :
    sendNotification none [tok163] "t" "b" [] =
      ⟨SendResult.ok, false⟩ ∧
    sendNotification none ["short"] "t" "b" [] =
      ⟨SendResult.err NotificationsServiceErr.InvalidDevice, false⟩ := by
  constructor
  · exact (C10_push_unconfigured [tok163] "t" "b" []).1 (by decide)
  · exact (C10_push_unconfigured ["short"] "t" "b" []).2 (by decide) none
